import Mathlib

/-!
Shallow embedding of `src/librustc/util/ppaux.rs`: the textual renderer for
rustc's internal type values (types, regions, substitutions, binders,
trait objects, closures).  Collaborator services that live outside the
file (the type context `tcx`: path resolution, lifting, substitution,
generics lookup, closure metadata) are modelled as abstract function
fields of a `Tcx` structure.  Rendering is written against an explicit
fuel parameter so that the mutual recursion between the type display,
`parameterized` and `fn_sig` is total; every claim is stated at a
successor fuel, which makes the fuel invisible at each rendering level.
-/

namespace Ppaux

abbrev Name := String

/-- hir::def_id::DefId: a (crate, index) pair identifying a global item. -/
structure DefId where
  krate : Nat
  index : Nat
deriving DecidableEq, BEq

/-- subst::ParamSpace: which parameter space a generic slot lives in. -/
inductive ParamSpace where
  | typeSpace
  | selfSpace
  | fnSpace
deriving DecidableEq, BEq

/-- hir::Mutability. -/
inductive Mutability where
  | mutMutable
  | mutImmutable
deriving DecidableEq, BEq

/-- hir::Unsafety; `danger` models the source's Unsafe variant. -/
inductive Unsafety where
  | normal
  | danger
deriving DecidableEq, BEq

/-- syntax::abi::Abi, with its Display text for the non-Rust case. -/
inductive Abi where
  | rust
  | namedAbi (s : String)
deriving DecidableEq, BEq

def Abi.toStr : Abi → String
  | .rust => "Rust"
  | .namedAbi s => s

/-- ast::IntTy. -/
inductive IntTy where
  | isize_
  | i8
  | i16
  | i32
  | i64
deriving DecidableEq, BEq

def IntTy.ty_to_string : IntTy → String
  | .isize_ => "isize"
  | .i8 => "i8"
  | .i16 => "i16"
  | .i32 => "i32"
  | .i64 => "i64"

/-- ast::UintTy. -/
inductive UintTy where
  | usize_
  | u8
  | u16
  | u32
  | u64
deriving DecidableEq, BEq

def UintTy.ty_to_string : UintTy → String
  | .usize_ => "usize"
  | .u8 => "u8"
  | .u16 => "u16"
  | .u32 => "u32"
  | .u64 => "u64"

/-- ast::FloatTy. -/
inductive FloatTy where
  | f32
  | f64
deriving DecidableEq, BEq

def FloatTy.ty_to_string : FloatTy → String
  | .f32 => "f32"
  | .f64 => "f64"

/-- ty::InferTy: inference placeholders, with the variable index inlined. -/
inductive InferTy where
  | tyVar (n : Nat)
  | intVar (n : Nat)
  | floatVar (n : Nat)
  | freshTy (n : Nat)
  | freshIntTy (n : Nat)
  | freshFloatTy (n : Nat)
deriving DecidableEq, BEq

/-- ty::BoundRegion. -/
inductive BoundRegion where
  | brAnon (n : Nat)
  | brFresh (n : Nat)
  | brNamed (did : DefId) (name : Name)
  | brEnv
deriving DecidableEq, BEq

/-- ty::Region.  Scope/node identities are modelled as naturals. -/
inductive Region where
  | reEarlyBound (space : ParamSpace) (index : Nat) (name : Name)
  | reLateBound (depth : Nat) (br : BoundRegion)
  | reFree (scope : Nat) (br : BoundRegion)
  | reScope (id : Nat)
  | reStatic
  | reVar (index : Nat)
  | reSkolemized (index : Nat) (br : BoundRegion)
  | reEmpty
deriving DecidableEq, BEq

/-- ty::BuiltinBound (the builtin capability bounds of an object type). -/
inductive BuiltinBound where
  | send
  | sized
  | copy
  | sync
deriving DecidableEq, BEq

/-- The derived Debug text of a BuiltinBound. -/
def BuiltinBound.debugStr : BuiltinBound → String
  | .send => "Send"
  | .sized => "Sized"
  | .copy => "Copy"
  | .sync => "Sync"

/-- ty::ClosureKind, as returned by lang_items.fn_trait_kind. -/
inductive ClosureKind where
  | fnK
  | fnMutK
  | fnOnceK
deriving DecidableEq, BEq

/-- Namespace of the path given to parameterized to print. -/
inductive Ns where
  | type'
  | value
deriving DecidableEq, BEq

/-- ty::ParamTy. -/
structure ParamTy where
  space : ParamSpace
  idx : Nat
  name : Name
deriving DecidableEq, BEq

/-- subst::VecPerParamSpace. -/
structure VecPerParamSpace (α : Type) where
  typeSpace : List α
  selfSpace : List α
  fnSpace : List α
deriving DecidableEq, BEq

def VecPerParamSpace.get_slice {α : Type} (v : VecPerParamSpace α) : ParamSpace → List α
  | .typeSpace => v.typeSpace
  | .selfSpace => v.selfSpace
  | .fnSpace => v.fnSpace

/-- subst::RegionSubsts: regions are either all erased or given per space. -/
inductive RegionSubsts where
  | erasedRegions
  | nonerasedRegions (v : VecPerParamSpace Region)
deriving DecidableEq, BEq

def RegionSubsts.get_slice (r : RegionSubsts) (space : ParamSpace) : List Region :=
  match r with
  | .erasedRegions => []
  | .nonerasedRegions v => v.get_slice space

/-- subst::Substs, generic in the type of types so it can nest inside Ty. -/
structure SubstsG (α : Type) where
  types : VecPerParamSpace α
  regions : RegionSubsts
deriving DecidableEq, BEq

/-- ty::Binder. -/
structure BinderG (α : Type) where
  val : α
deriving DecidableEq, BEq

/-- ty::TraitRef. -/
structure TraitRefG (α : Type) where
  def_id : DefId
  substs : SubstsG α
deriving DecidableEq, BEq

/-- ty::ProjectionTy. -/
structure ProjectionTyG (α : Type) where
  trait_ref : TraitRefG α
  item_name : Name
deriving DecidableEq, BEq

/-- ty::ProjectionPredicate. -/
structure ProjectionPredicateG (α : Type) where
  projection_ty : ProjectionTyG α
  ty : α
deriving DecidableEq, BEq

/-- ty::FnOutput. -/
inductive FnOutputG (α : Type) where
  | fnConverging (t : α)
  | fnDiverging
deriving DecidableEq, BEq

/-- ty::FnSig. -/
structure FnSigG (α : Type) where
  inputs : List α
  output : FnOutputG α
  variadic : Bool
deriving DecidableEq, BEq

/-- ty::BareFnTy. -/
structure BareFnTyG (α : Type) where
  unsafety : Unsafety
  abi : Abi
  sig : BinderG (FnSigG α)
deriving DecidableEq, BEq

/-- ty::ExistentialBounds. -/
structure ExistentialBoundsG (α : Type) where
  region_bound : Region
  builtin_bounds : List BuiltinBound
  projection_bounds : List (BinderG (ProjectionPredicateG α))
deriving DecidableEq, BEq

/-- ty::TraitTy (the payload of a trait-object type). -/
structure TraitTyG (α : Type) where
  principal : BinderG (TraitRefG α)
  bounds : ExistentialBoundsG α
deriving DecidableEq, BEq

/-- ty::ClosureSubsts. -/
structure ClosureSubstsG (α : Type) where
  func_substs : SubstsG α
  upvar_tys : List α
deriving DecidableEq, BEq

/-- ty::TypeVariants, the shape union of type values. -/
inductive Ty where
  | tyBool
  | tyChar
  | tyInt (t : IntTy)
  | tyUint (t : UintTy)
  | tyFloat (t : FloatTy)
  | tyBox (inner : Ty)
  | tyRawPtr (mutbl : Mutability) (inner : Ty)
  | tyRef (r : Region) (mutbl : Mutability) (inner : Ty)
  | tyTuple (tys : List Ty)
  | tyFnDef (did : DefId) (substs : SubstsG Ty) (bare : BareFnTyG Ty)
  | tyFnPtr (bare : BareFnTyG Ty)
  | tyInfer (it : InferTy)
  | tyError
  | tyParam (p : ParamTy)
  | tyEnum (did : DefId) (substs : SubstsG Ty)
  | tyStruct (did : DefId) (substs : SubstsG Ty)
  | tyTrait (tt : TraitTyG Ty)
  | tyProjection (p : ProjectionTyG Ty)
  | tyStr
  | tyClosure (did : DefId) (substs : ClosureSubstsG Ty)
  | tyArray (elem : Ty) (size : Nat)
  | tySlice (elem : Ty)

abbrev Substs := SubstsG Ty
abbrev TraitRef := TraitRefG Ty
abbrev ProjectionTy := ProjectionTyG Ty
abbrev ProjectionPredicate := ProjectionPredicateG Ty
abbrev PolyProjectionPredicate := BinderG (ProjectionPredicateG Ty)
abbrev FnOutput := FnOutputG Ty
abbrev TraitTy := TraitTyG Ty
abbrev ClosureSubsts := ClosureSubstsG Ty
abbrev TraitAndProjections := TraitRefG Ty × List (ProjectionPredicateG Ty)

/-!
Structural equality on interned type values.  Interned values in the
source compare by pointer, which coincides with structural equality; the
derived BEq instance for a nested inductive is compiled by well-founded
recursion and so does not reduce, hence this hand-rolled structural
version.
-/

mutual

def tyBeq : Ty → Ty → Bool
  | .tyBool, .tyBool => true
  | .tyChar, .tyChar => true
  | .tyInt a, .tyInt b => a == b
  | .tyUint a, .tyUint b => a == b
  | .tyFloat a, .tyFloat b => a == b
  | .tyBox a, .tyBox b => tyBeq a b
  | .tyRawPtr m a, .tyRawPtr m' b => m == m' && tyBeq a b
  | .tyRef r m a, .tyRef r' m' b => r == r' && (m == m' && tyBeq a b)
  | .tyTuple as, .tyTuple bs => tyListBeq as bs
  | .tyFnDef d s f, .tyFnDef d' s' f' =>
    d == d' && (substsBeq s s' && bareFnBeq f f')
  | .tyFnPtr f, .tyFnPtr f' => bareFnBeq f f'
  | .tyInfer a, .tyInfer b => a == b
  | .tyError, .tyError => true
  | .tyParam a, .tyParam b => a == b
  | .tyEnum d s, .tyEnum d' s' => d == d' && substsBeq s s'
  | .tyStruct d s, .tyStruct d' s' => d == d' && substsBeq s s'
  | .tyTrait t, .tyTrait t' => traitTyBeq t t'
  | .tyProjection p, .tyProjection p' => projectionTyBeq p p'
  | .tyStr, .tyStr => true
  | .tyClosure d s, .tyClosure d' s' => d == d' && closureSubstsBeq s s'
  | .tyArray a n, .tyArray b n' => tyBeq a b && n == n'
  | .tySlice a, .tySlice b => tyBeq a b
  | _, _ => false
termination_by structural a _ => a

def tyListBeq : List Ty → List Ty → Bool
  | [], [] => true
  | a :: as, b :: bs => tyBeq a b && tyListBeq as bs
  | _, _ => false
termination_by structural a _ => a

def vppsBeq : VecPerParamSpace Ty → VecPerParamSpace Ty → Bool
  | ⟨t, s, f⟩, ⟨t', s', f'⟩ =>
    tyListBeq t t' && (tyListBeq s s' && tyListBeq f f')
termination_by structural a _ => a

def substsBeq : SubstsG Ty → SubstsG Ty → Bool
  | ⟨t, r⟩, ⟨t', r'⟩ => vppsBeq t t' && r == r'
termination_by structural a _ => a

def bareFnBeq : BareFnTyG Ty → BareFnTyG Ty → Bool
  | ⟨u, a, ⟨s⟩⟩, ⟨u', a', ⟨s'⟩⟩ => u == u' && (a == a' && fnSigBeq s s')
termination_by structural a _ => a

def fnSigBeq : FnSigG Ty → FnSigG Ty → Bool
  | ⟨i, o, v⟩, ⟨i', o', v'⟩ =>
    tyListBeq i i' && (fnOutputBeq o o' && v == v')
termination_by structural a _ => a

def fnOutputBeq : FnOutputG Ty → FnOutputG Ty → Bool
  | .fnConverging a, .fnConverging b => tyBeq a b
  | .fnDiverging, .fnDiverging => true
  | _, _ => false
termination_by structural a _ => a

def traitTyBeq : TraitTyG Ty → TraitTyG Ty → Bool
  | ⟨⟨p⟩, b⟩, ⟨⟨p'⟩, b'⟩ => traitRefBeq p p' && exBoundsBeq b b'
termination_by structural a _ => a

def traitRefBeq : TraitRefG Ty → TraitRefG Ty → Bool
  | ⟨d, s⟩, ⟨d', s'⟩ => d == d' && substsBeq s s'
termination_by structural a _ => a

def exBoundsBeq : ExistentialBoundsG Ty → ExistentialBoundsG Ty → Bool
  | ⟨r, b, p⟩, ⟨r', b', p'⟩ => r == r' && (b == b' && projBoundsBeq p p')
termination_by structural a _ => a

def projBoundsBeq : List (BinderG (ProjectionPredicateG Ty)) →
    List (BinderG (ProjectionPredicateG Ty)) → Bool
  | [], [] => true
  | ⟨a⟩ :: as, ⟨b⟩ :: bs => projPredBeq a b && projBoundsBeq as bs
  | _, _ => false
termination_by structural a _ => a

def projPredBeq : ProjectionPredicateG Ty → ProjectionPredicateG Ty → Bool
  | ⟨pt, t⟩, ⟨pt', t'⟩ => projectionTyBeq pt pt' && tyBeq t t'
termination_by structural a _ => a

def projectionTyBeq : ProjectionTyG Ty → ProjectionTyG Ty → Bool
  | ⟨tr, n⟩, ⟨tr', n'⟩ => traitRefBeq tr tr' && n == n'
termination_by structural a _ => a

def closureSubstsBeq : ClosureSubstsG Ty → ClosureSubstsG Ty → Bool
  | ⟨fs, u⟩, ⟨fs', u'⟩ => substsBeq fs fs' && tyListBeq u u'
termination_by structural a _ => a

end

instance : BEq Ty := ⟨tyBeq⟩

/-- Substs::self_ty: the receiver type, when the self space is filled. -/
def SubstsG.self_ty (s : Substs) : Option Ty :=
  s.types.selfSpace.head?

/-- Ty::is_nil: the unit type is the empty tuple. -/
def Ty.is_nil : Ty → Bool
  | .tyTuple [] => true
  | _ => false

/-- ty::TypeParameterDef: one declared generic type parameter. -/
structure TypeParameterDef where
  name : Name
  def_id : DefId
  space : ParamSpace
  index : Nat
  default : Option Ty
deriving BEq

/-- ty::RegionParameterDef. -/
structure RegionParameterDef where
  name : Name
  def_id : DefId
  space : ParamSpace
  index : Nat
deriving DecidableEq, BEq

/-- ty::Generics: the declared generic parameters of an item. -/
structure Generics where
  types : VecPerParamSpace TypeParameterDef
  regions : VecPerParamSpace RegionParameterDef
deriving BEq

/-- The type context and its collaborator services, abstracted as plain
functions: path resolution, associated-item owner lookup, lang items,
lifting (cross-scope resolution, fallible), substitution, closure
metadata and the session verbosity flag. -/
structure Tcx where
  verbose : Bool
  item_path_str : DefId → String
  item_name : DefId → Name
  trait_of_item : DefId → Option DefId
  impl_of_method : DefId → Option DefId
  fn_trait_kind : DefId → Option ClosureKind
  lookup_item_type_generics : DefId → Generics
  lookup_trait_def_generics : DefId → Generics
  lift_substs : Substs → Option Substs
  lift_ty : Ty → Option Ty
  subst_ty : Ty → Substs → Ty
  has_self_ty : Ty → Bool
  lift_trait_ref : TraitRef → Option TraitRef
  lift_projection_bounds :
    List PolyProjectionPredicate → Option (List PolyProjectionPredicate)
  tap_encounters : BinderG TraitAndProjections → List BoundRegion
  tap_replace :
    BinderG TraitAndProjections → (BoundRegion → Region) → TraitAndProjections
  crate_def_id : DefId
  as_local_node_id : DefId → Option Nat
  span_str : Nat → String
  freevars : Nat → List Nat
  local_var_name_str : Nat → Name
  def_id_debug : DefId → String
  is_local : DefId → Bool
  tcache_contains : DefId → Bool

/-- Joins rendered items with a separator, the way the source's
start_or_continue closures do: nothing for an empty list, and the
separator only between consecutive items. -/
def sepJoin (sep : String) : List String → String
  | [] => ""
  | x :: rest => x ++ String.join (rest.map fun y => sep ++ y)

/-- Debug text of a ParamSpace (derived Debug in the source). -/
def ParamSpace.debugStr : ParamSpace → String
  | .typeSpace => "TypeSpace"
  | .selfSpace => "SelfSpace"
  | .fnSpace => "FnSpace"

/-- fmt::Debug for ty::BoundRegion. -/
def BoundRegion.debugStr : BoundRegion → String
  | .brAnon n => "BrAnon(" ++ toString n ++ ")"
  | .brFresh n => "BrFresh(" ++ toString n ++ ")"
  | .brNamed did name =>
    "BrNamed(" ++ toString did.krate ++ ":" ++ toString did.index ++ ", "
      ++ name ++ ")"
  | .brEnv => "BrEnv"

/-- fmt::Debug for ty::Region. -/
def Region.debugStr : Region → String
  | .reEarlyBound space index name =>
    "ReEarlyBound(" ++ space.debugStr ++ ", " ++ toString index ++ ", "
      ++ name ++ ")"
  | .reLateBound depth br =>
    "ReLateBound(DebruijnIndex(" ++ toString depth ++ "), " ++ br.debugStr ++ ")"
  | .reFree scope br =>
    "ReFree(" ++ toString scope ++ ", " ++ br.debugStr ++ ")"
  | .reScope id => "ReScope(" ++ toString id ++ ")"
  | .reStatic => "ReStatic"
  | .reVar index => "\x27_#" ++ toString index ++ "r"
  | .reSkolemized index br =>
    "ReSkolemized(" ++ toString index ++ ", " ++ br.debugStr ++ ")"
  | .reEmpty => "ReEmpty"

/-- fmt::Display for ty::BoundRegion: verbose mode falls back to Debug;
concise mode shows a user-supplied name and nothing otherwise. -/
def BoundRegion.displayStr (verbose : Bool) (br : BoundRegion) : String :=
  if verbose then br.debugStr
  else
    match br with
    | .brNamed _ name => name
    | .brAnon _ | .brFresh _ | .brEnv => ""

/-- fmt::Display for ty::Region: verbose mode falls back to Debug; the
concise printouts are short and may be empty (scope-local regions and
region inference variables). -/
def Region.displayStr (verbose : Bool) (r : Region) : String :=
  if verbose then r.debugStr
  else
    match r with
    | .reEarlyBound _ _ name => name
    | .reLateBound _ br | .reFree _ br | .reSkolemized _ br =>
      br.displayStr verbose
    | .reScope _ | .reVar _ => ""
    | .reStatic => "\x27static"
    | .reEmpty => "\x27<empty>"

/-- The print_region closure of `parameterized`: verbose shows the Debug
form; otherwise an empty concise rendering becomes the placeholder
underscore lifetime. -/
def print_region (tcx : Tcx) (region : Region) : String :=
  if tcx.verbose then
    region.debugStr
  else
    let s := region.displayStr tcx.verbose
    if s = "" then "\x27_" else s

/-- fmt::Display for ty::InferTy. -/
def InferTy.displayStr (verbose : Bool) : InferTy → String
  | .tyVar n => if verbose then "_#" ++ toString n ++ "t" else "_"
  | .intVar n => if verbose then "_#" ++ toString n ++ "i" else "_"
  | .floatVar n => if verbose then "_#" ++ toString n ++ "f" else "_"
  | .freshTy n => "FreshTy(" ++ toString n ++ ")"
  | .freshIntTy n => "FreshIntTy(" ++ toString n ++ ")"
  | .freshFloatTy n => "FreshFloatTy(" ++ toString n ++ ")"

/-- The associated-value owner lookup performed by `parameterized` for the
value namespace: try the trait parent, then the impl parent, and keep the
item's own name for the later suffix. -/
def resolveValueItem (tcx : Tcx) (did : DefId) (ns : Ns) : DefId × Option Name :=
  if ns = .value then
    match (tcx.trait_of_item did).orElse (fun _ => tcx.impl_of_method did) with
    | some parent => (parent, some (tcx.item_name did))
    | none => (did, none)
  else (did, none)

/-- number_of_supplied_defaults: how many trailing type arguments of the
given space match their declared defaults after substitution through the
lifted record, walking parameter/argument pairs from the tail. -/
def number_of_supplied_defaults (tcx : Tcx) (substs : Substs)
    (space : ParamSpace) (get_generics : Tcx → Generics) : Nat :=
  let generics := get_generics tcx
  let has_self := substs.self_ty.isSome
  let ty_params := generics.types.get_slice space
  let tps := substs.types.get_slice space
  if ((ty_params.getLast?.map fun d => d.default.isSome).getD false) then
    let substs' := tcx.lift_substs substs
    (((ty_params.zip tps).reverse).takeWhile fun da =>
      match da.1.default with
      | some dflt =>
        if !has_self && tcx.has_self_ty dflt then
          -- In an object type there is no Self; a default mentioning it
          -- cannot be compared, so the walk stops here.
          false
        else
          (substs'.bind fun s => (tcx.lift_ty dflt).map fun d =>
            tcx.subst_ty d s) == some da.2
      | none => false).length
  else
    0

/-- in_binder: renders a Binder-wrapped value.  The collaborator
replace_late_bound_regions (ty/fold.rs, outside this file) is modelled by
the pair of arguments `encounters` (the distinct bound regions in first
encounter order, for which the source's folding callback fires once each)
and `replace_late_bound_regions` (the rebuilt value). -/
def in_binder {T U : Type} (dispT : T → String) (dispU : U → String)
    (encounters : BinderG U → List BoundRegion)
    (replace_late_bound_regions : BinderG U → (BoundRegion → Region) → U)
    (crate_def_id : DefId)
    (original : BinderG T) (lifted : Option (BinderG U)) : String :=
  match lifted with
  | none => dispT original.val
  | some value =>
    let brs := encounters value
    let names := brs.map fun br =>
      match br with
      | .brNamed _ name => name
      | .brAnon _ | .brFresh _ | .brEnv => "\x27r"
    let new_value := replace_late_bound_regions value fun br =>
      .reLateBound 1 (match br with
        | .brNamed did name => .brNamed did name
        | .brAnon _ | .brFresh _ | .brEnv => .brNamed crate_def_id "\x27r")
    (if brs.isEmpty then "" else "for<" ++ sepJoin ", " names ++ "> ")
      ++ dispU new_value

/-- The call-trait sugar test of `parameterized` (lines 137-142): fires in
concise mode when the item is a Fn/FnMut/FnOnce lang item, exactly one
projection predicate is given, and the first type-space argument is a
tuple.  (The source indexes the type-space slice at 0, which would panic
on an empty slice; an empty slice is treated here as not matching.) -/
def callTraitSugar (tcx : Tcx) (substs : Substs) (did1 : DefId)
    (projections : List ProjectionPredicate)
    (sig : List Ty → Bool → FnOutput → String) : Option String :=
  if !tcx.verbose && (tcx.fn_trait_kind did1).isSome
      && projections.length == 1 then
    match projections.head?, (substs.types.get_slice .typeSpace).head? with
    | some proj, some (.tyTuple args) =>
      some (sig args false (.fnConverging proj.ty))
    | _, _ => none
  else none

/-- The type-space type arguments that `parameterized` actually prints:
all of them, minus the trailing defaults elided when not verbose. -/
def shownTypeArgs (tcx : Tcx) (substs : Substs)
    (get_generics : Tcx → Generics) : List Ty :=
  let num := if tcx.verbose then 0
    else number_of_supplied_defaults tcx substs .typeSpace get_generics
  let tps := substs.types.get_slice .typeSpace
  tps.take (tps.length - num)

/-- The items of the main generic-argument list of `parameterized`:
type-space regions, then the non-elided type-space type arguments, then
one name=Type entry per projection. -/
def parameterizedArgItems (tcx : Tcx) (substs : Substs)
    (projections : List ProjectionPredicate) (get_generics : Tcx → Generics)
    (disp : Ty → String) : List String :=
  ((substs.regions.get_slice .typeSpace).map fun r => print_region tcx r)
    ++ (shownTypeArgs tcx substs get_generics).map disp
    ++ projections.map fun p => p.projection_ty.item_name ++ "=" ++ disp p.ty

/-- The value-namespace tail of `parameterized` (lines 205-229): close the
receiver prefix, append the associated item's name, then the method-space
regions and types in a second ::<...> list (with no elision). -/
def parameterizedValueSuffix (tcx : Tcx) (substs : Substs)
    (item_name : Option Name) (disp : Ty → String) : String :=
  (if substs.self_ty.isSome then ">" else "")
    ++ (match item_name with
        | some n => "::" ++ n
        | none => "")
    ++ (let fnItems :=
          ((substs.regions.get_slice .fnSpace).map fun r => print_region tcx r)
            ++ (substs.types.get_slice .fnSpace).map disp
        if fnItems.isEmpty then "" else "::<" ++ sepJoin ", " fnItems ++ ">")

mutual

/-- fmt::Display for ty::TypeVariants, fueled. -/
def dispTy : Nat → Tcx → Ty → String
  | 0, _, _ => ""
  | fuel+1, tcx, t =>
    match t with
    | .tyBool => "bool"
    | .tyChar => "char"
    | .tyInt it => it.ty_to_string
    | .tyUint ut => ut.ty_to_string
    | .tyFloat ft => ft.ty_to_string
    | .tyBox inner => "Box<" ++ dispTy fuel tcx inner ++ ">"
    | .tyRawPtr mutbl inner =>
      "*" ++ (match mutbl with
              | .mutMutable => "mut"
              | .mutImmutable => "const")
        ++ " " ++ dispTy fuel tcx inner
    | .tyRef r mutbl inner =>
      let s := r.displayStr tcx.verbose
      "&" ++ s ++ (if s = "" then "" else " ")
        ++ (if mutbl = .mutMutable then "mut " else "")
        ++ dispTy fuel tcx inner
    | .tyTuple tys =>
      "(" ++ (match tys with
        | [] => ""
        | [t1] => dispTy fuel tcx t1 ++ ","
        | t1 :: t2 :: rest =>
          dispTy fuel tcx t1 ++ ", " ++ dispTy fuel tcx t2
            ++ String.join (rest.map fun t3 => ", " ++ dispTy fuel tcx t3))
        ++ ")"
    | .tyFnDef did substs bare =>
      (if bare.unsafety = .danger then "unsafe " else "")
        ++ (if bare.abi ≠ .rust then "extern " ++ bare.abi.toStr ++ " " else "")
        ++ "fn"
        ++ fn_sig fuel tcx bare.sig.val.inputs bare.sig.val.variadic
             bare.sig.val.output
        ++ " \x7b"
        ++ parameterized fuel tcx substs did .value []
             (fun tcx2 => tcx2.lookup_item_type_generics did)
        ++ "\x7d"
    | .tyFnPtr bare =>
      (if bare.unsafety = .danger then "unsafe " else "")
        ++ (if bare.abi ≠ .rust then "extern " ++ bare.abi.toStr ++ " " else "")
        ++ "fn"
        ++ fn_sig fuel tcx bare.sig.val.inputs bare.sig.val.variadic
             bare.sig.val.output
    | .tyInfer it => it.displayStr tcx.verbose
    | .tyError => "[type error]"
    | .tyParam p => p.name
    | .tyEnum did substs | .tyStruct did substs =>
      if tcx.is_local did && !(tcx.tcache_contains did) then
        tcx.item_path_str did ++ "<..>"
      else
        parameterized fuel tcx substs did .type' []
          (fun tcx2 => tcx2.lookup_item_type_generics did)
    | .tyTrait tt =>
      -- fmt::Display for TraitTy aborts (panics) when lifting fails; the
      -- total wrapper surfaces the panic message as a marker string, and
      -- the panic condition itself is captured by traitTyFmt's error.
      match traitTyFmt fuel tcx tt with
      | .ok s => s
      | .error e => "[" ++ e ++ "]"
    | .tyProjection p => projectionTyStr fuel tcx p
    | .tyStr => "str"
    | .tyClosure did csubsts =>
      "[closure"
        ++ (match tcx.as_local_node_id did with
            | some node_id =>
              let items := ((tcx.freevars node_id).zip csubsts.upvar_tys).map
                fun fv =>
                  tcx.local_var_name_str fv.1 ++ ":" ++ dispTy fuel tcx fv.2
              "@" ++ tcx.span_str node_id
                ++ (if items.isEmpty then "" else " " ++ sepJoin ", " items)
            | none =>
              -- cross-crate closure: upvars are labelled by index
              let items := (csubsts.upvar_tys.enum).map
                fun ut => toString ut.1 ++ ":" ++ dispTy fuel tcx ut.2
              "@" ++ tcx.def_id_debug did
                ++ (if items.isEmpty then "" else " " ++ sepJoin ", " items))
        ++ "]"
    | .tyArray elem size =>
      "[" ++ dispTy fuel tcx elem ++ "; " ++ toString size ++ "]"
    | .tySlice elem => "[" ++ dispTy fuel tcx elem ++ "]"

/-- fn_sig (lines 34-63): the parenthesised parameter list with its
variadic marker, then the output. -/
def fn_sig : Nat → Tcx → List Ty → Bool → FnOutput → String
  | 0, _, _, _, _ => ""
  | fuel+1, tcx, inputs, variadic, output =>
    "(" ++ (match inputs with
      | [] => ""
      | t1 :: rest =>
        dispTy fuel tcx t1
          ++ String.join (rest.map fun t2 => ", " ++ dispTy fuel tcx t2)
          ++ (if variadic then ", ..." else ""))
      ++ ")"
      ++ (match output with
          | .fnConverging t1 =>
            if t1.is_nil then "" else " -> " ++ dispTy fuel tcx t1
          | .fnDiverging => " -> !")

/-- parameterized (lines 111-232): the namespace-aware path renderer. -/
def parameterized : Nat → Tcx → Substs → DefId → Ns →
    List ProjectionPredicate → (Tcx → Generics) → String
  | 0, _, _, _, _, _, _ => ""
  | fuel+1, tcx, substs, did, ns, projections, get_generics =>
    let head :=
      (match ns, substs.self_ty with
       | .value, some self_ty => "<" ++ dispTy fuel tcx self_ty ++ " as "
       | _, _ => "")
    let resolved := resolveValueItem tcx did ns
    let head := head ++ tcx.item_path_str resolved.1
    match callTraitSugar tcx substs resolved.1 projections
        (fun args variadic output => fn_sig fuel tcx args variadic output) with
    | some sugar => head ++ sugar
    | none =>
      let items := parameterizedArgItems tcx substs projections get_generics
        (fun t => dispTy fuel tcx t)
      let listStr :=
        if items.isEmpty then "" else "<" ++ sepJoin ", " items ++ ">"
      head ++ listStr
        ++ (if ns = .value then
              parameterizedValueSuffix tcx substs resolved.2
                (fun t => dispTy fuel tcx t)
            else "")

/-- fmt::Display for ty::TraitTy (lines 317-350): lift the principal and
the projection bounds (both failures are fatal internal-consistency
violations, surfaced here as Except errors standing for the source's
expect panics), render them through in_binder sharing one binder, then
the builtin capability bounds and a non-empty region bound. -/
def traitTyFmt : Nat → Tcx → TraitTy → Except String String
  | 0, _, _ => .error "fuel"
  | fuel+1, tcx, tt =>
    match tcx.lift_trait_ref tt.principal.val with
    | none => .error "could not lift TraitRef for printing"
    | some principal =>
      match tcx.lift_projection_bounds tt.bounds.projection_bounds with
      | none => .error "could not lift projections for printing"
      | some projections =>
        let tap : TraitAndProjections :=
          (principal, projections.map fun p => p.val)
        let main := in_binder (fun (s : String) => s)
          (fun tap2 => tapDisp fuel tcx tap2)
          tcx.tap_encounters tcx.tap_replace tcx.crate_def_id
          ⟨""⟩ (some ⟨tap⟩)
        let builtin := String.join
          (tt.bounds.builtin_bounds.map fun b => " + " ++ b.debugStr)
        let rb := tt.bounds.region_bound.displayStr tcx.verbose
        .ok (main ++ builtin ++ (if rb = "" then "" else " + " ++ rb))

/-- fmt::Display for TraitAndProjections (lines 306-315): the principal
trait reference and the projection bounds merged into one path rendering. -/
def tapDisp : Nat → Tcx → TraitAndProjections → String
  | 0, _, _ => ""
  | fuel+1, tcx, tap =>
    parameterized fuel tcx tap.1.substs tap.1.def_id .type' tap.2
      (fun tcx2 => tcx2.lookup_trait_def_generics tap.1.def_id)

/-- fmt::Display for ty::ProjectionTy: the Debug form of the trait
reference, then ::itemName. -/
def projectionTyStr : Nat → Tcx → ProjectionTy → String
  | 0, _, _ => ""
  | fuel+1, tcx, p =>
    traitRefDebugStr fuel tcx p.trait_ref ++ "::" ++ p.item_name

/-- fmt::Debug for ty::TraitRef: qualified with the self type if present. -/
def traitRefDebugStr : Nat → Tcx → TraitRef → String
  | 0, _, _ => ""
  | fuel+1, tcx, tr =>
    match tr.substs.self_ty with
    | none => traitRefDisplayStr fuel tcx tr
    | some self_ty =>
      "<" ++ dispTy fuel tcx self_ty ++ " as "
        ++ traitRefDisplayStr fuel tcx tr ++ ">"

/-- fmt::Display for ty::TraitRef: a type-namespace path rendering with no
projections. -/
def traitRefDisplayStr : Nat → Tcx → TraitRef → String
  | 0, _, _ => ""
  | fuel+1, tcx, tr =>
    parameterized fuel tcx tr.substs tr.def_id .type' []
      (fun tcx2 => tcx2.lookup_trait_def_generics tr.def_id)

end

/-! ### Concrete instances used by the examples and witnesses -/

def emptyVPS {α : Type} : VecPerParamSpace α := ⟨[], [], []⟩

def noGenerics : Generics := ⟨emptyVPS, emptyVPS⟩

def did0 : DefId := ⟨0, 0⟩

/-- A small concrete type context: concise mode, a fixed path, identity
substitution and always-successful lifting. -/
def egTcx : Tcx where
  verbose := false
  item_path_str := fun _ => "Foo"
  item_name := fun _ => "item"
  trait_of_item := fun _ => none
  impl_of_method := fun _ => none
  fn_trait_kind := fun _ => none
  lookup_item_type_generics := fun _ => noGenerics
  lookup_trait_def_generics := fun _ => noGenerics
  lift_substs := fun s => some s
  lift_ty := fun t => some t
  subst_ty := fun d _ => d
  has_self_ty := fun _ => false
  lift_trait_ref := fun tr => some tr
  lift_projection_bounds := fun ps => some ps
  tap_encounters := fun _ => []
  tap_replace := fun v _ => v.val
  crate_def_id := ⟨0, 99⟩
  as_local_node_id := fun _ => none
  span_str := fun n => "sp" ++ toString n
  freevars := fun _ => []
  local_var_name_str := fun n => "v" ++ toString n
  def_id_debug := fun d =>
    "DefId(" ++ toString d.krate ++ "/" ++ toString d.index ++ ")"
  is_local := fun _ => false
  tcache_contains := fun _ => true

/-- A declared type parameter in the type space. -/
def tpd (n : Name) (dflt : Option Ty) : TypeParameterDef :=
  ⟨n, did0, .typeSpace, 0, dflt⟩

/-- Two type parameters, both with defaults (bool and char). -/
def ggDefaults : Generics :=
  ⟨⟨[tpd "A" (some .tyBool), tpd "B" (some .tyChar)], [], []⟩, emptyVPS⟩

/-- Arguments matching both defaults. -/
def substsBothDefault : Substs :=
  ⟨⟨[.tyBool, .tyChar], [], []⟩, .nonerasedRegions emptyVPS⟩

/-- The first argument mutated away from its default. -/
def substsMut : Substs :=
  ⟨⟨[.tyStr, .tyChar], [], []⟩, .nonerasedRegions emptyVPS⟩

/-- A generics descriptor whose single default mentions the receiver. -/
def ggSelfRef : Generics :=
  ⟨⟨[tpd "A" (some (.tyParam ⟨.selfSpace, 0, "Self"⟩))], [], []⟩, emptyVPS⟩

/-- A context that recognises the Self parameter in defaults. -/
def egTcxSelf : Tcx :=
  { egTcx with has_self_ty := fun t => t == .tyParam ⟨.selfSpace, 0, "Self"⟩ }

/-- An argument list for ggSelfRef with no receiver present. -/
def substsSelfRef : Substs :=
  ⟨⟨[.tyParam ⟨.selfSpace, 0, "Self"⟩], [], []⟩, .nonerasedRegions emptyVPS⟩

/-- One projection predicate, Output=char. -/
def projP : ProjectionPredicate :=
  ⟨⟨⟨did0, ⟨emptyVPS, .erasedRegions⟩⟩, "Output"⟩, .tyChar⟩

/-- A sole type-space argument that is a one-element tuple. -/
def substsTup : Substs :=
  ⟨⟨[.tyTuple [.tyBool]], [], []⟩, .nonerasedRegions emptyVPS⟩

/-- The same context with the item recognised as a call-trait lang item. -/
def egTcxFn : Tcx := { egTcx with fn_trait_kind := fun _ => some .fnK }

/-- Value-namespace data: receiver bool, one type argument char, one
method-space argument str. -/
def substsVal : Substs :=
  ⟨⟨[.tyChar], [.tyBool], [.tyStr]⟩, .nonerasedRegions emptyVPS⟩

/-- A context whose owner lookup finds a trait parent named mth. -/
def egTcxVal : Tcx :=
  { egTcx with trait_of_item := fun _ => some ⟨1, 1⟩,
               item_name := fun _ => "mth" }

/-- A context that sees the closure as locally defined with two upvars. -/
def egTcxClo : Tcx :=
  { egTcx with as_local_node_id := fun _ => some 7,
               freevars := fun _ => [10, 11] }

/-- Closure substitutions capturing a bool and a char. -/
def cloSubsts : ClosureSubsts := ⟨⟨emptyVPS, .erasedRegions⟩, [.tyBool, .tyChar]⟩

/-- A single scope-local region in the type space, no type arguments. -/
def substsReg : Substs :=
  ⟨⟨[], [], []⟩, .nonerasedRegions ⟨[.reScope 3], [], []⟩⟩

/-- A context whose principal-trait lift fails. -/
def egTcxNoLift : Tcx := { egTcx with lift_trait_ref := fun _ => none }

/-- A context whose projection-bounds lift fails. -/
def egTcxNoLiftProj : Tcx :=
  { egTcx with lift_projection_bounds := fun _ => none }

/-- A context for which did0 is local with no cached layout. -/
def egTcxLocal : Tcx :=
  { egTcx with is_local := fun _ => true, tcache_contains := fun _ => false }

/-- A small trait-object payload. -/
def tt0 : TraitTy :=
  ⟨⟨⟨did0, ⟨emptyVPS, .erasedRegions⟩⟩⟩, ⟨.reEmpty, [.send], []⟩⟩

/-! ### The trailing-run count and its relation to takeWhile-of-reverse -/

/-- The length of the maximal trailing run of elements satisfying p,
defined by walking the list from its tail, as the spec describes the
default-elision walk. -/
def trailingCount {α : Type} (p : α → Bool) : List α → Nat
  | [] => 0
  | x :: xs =>
    let k := trailingCount p xs
    if k = xs.length then (if p x then k + 1 else k) else k

theorem takeWhile_length_le {α : Type} (p : α → Bool) (l : List α) :
    (l.takeWhile p).length ≤ l.length := by
  induction l with
  | nil => simp
  | cons a l ih =>
    by_cases h : p a
    · simp only [List.takeWhile_cons, h, if_true, List.length_cons]
      omega
    · simp [List.takeWhile_cons, h]

theorem takeWhile_append_full {α : Type} (p : α → Bool) (l l' : List α) :
    (l ++ l').takeWhile p =
      if (l.takeWhile p).length = l.length then l ++ l'.takeWhile p
      else l.takeWhile p := by
  induction l with
  | nil => simp
  | cons a l ih =>
    by_cases h : p a
    · simp only [List.cons_append, List.takeWhile_cons, h, if_true, ih,
        List.length_cons]
      by_cases h2 : (l.takeWhile p).length = l.length
      · simp [h2]
      · have h3 : ¬ ((l.takeWhile p).length + 1 = l.length + 1) := by omega
        simp [h2, h3]
    · have h2 : ¬ (([] : List α).length = l.length + 1) := by simp
      simp [List.takeWhile_cons, h, h2]

theorem trailingCount_eq_takeWhile_reverse {α : Type} (p : α → Bool)
    (l : List α) :
    trailingCount p l = (l.reverse.takeWhile p).length := by
  induction l with
  | nil => simp [trailingCount]
  | cons x xs ih =>
    rw [List.reverse_cons, takeWhile_append_full]
    by_cases h : (xs.reverse.takeWhile p).length = xs.reverse.length
    · simp only [h, if_true, List.length_append, List.length_reverse]
      by_cases hx : p x
      · simp [trailingCount, ih, h, List.length_reverse, hx,
          List.takeWhile_cons]
      · simp [trailingCount, ih, h, List.length_reverse, hx,
          List.takeWhile_cons]
    · have h' : trailingCount p xs ≠ xs.length := by
        rw [ih]; simpa using h
      have hf : ¬ (xs.reverse.takeWhile p).length = xs.length := by
        simpa using h
      simp [trailingCount, h', hf, ih]

theorem trailingCount_append_all {α : Type} (p : α → Bool) (l₁ l₂ : List α)
    (h₂ : ∀ x ∈ l₂, p x = true)
    (h₁ : l₁ = [] ∨ ∃ l₀ x, l₁ = l₀ ++ [x] ∧ p x = false) :
    trailingCount p (l₁ ++ l₂) = l₂.length := by
  rw [trailingCount_eq_takeWhile_reverse, List.reverse_append,
    takeWhile_append_full]
  have hall : l₂.reverse.takeWhile p = l₂.reverse :=
    List.takeWhile_eq_self_iff.mpr (by
      intro x hx
      exact h₂ x (List.mem_reverse.mp hx))
  rcases h₁ with rfl | ⟨l₀, x, rfl, hx⟩
  · simp [hall]
  · simp only [hall, List.length_reverse, if_true, List.reverse_append,
      List.reverse_cons, List.reverse_singleton, List.singleton_append,
      List.takeWhile_cons, hx]
    simp [hx]

theorem trailingCount_break_le {α : Type} (p : α → Bool) (l₁ l₂ : List α)
    (x : α) (hx : p x = false) :
    trailingCount p (l₁ ++ x :: l₂) ≤ l₂.length := by
  have hrev : (l₁ ++ x :: l₂).reverse = l₂.reverse ++ x :: l₁.reverse := by
    simp
  rw [trailingCount_eq_takeWhile_reverse, hrev, takeWhile_append_full]
  by_cases h : (l₂.reverse.takeWhile p).length = l₂.reverse.length
  · simp [h, List.takeWhile_cons, hx]
  · have := takeWhile_length_le p l₂.reverse
    simp only [h, if_false]
    simpa using this

/-! ### The elision predicate and the characterisation of the count -/

/-- The elision test for one parameter/argument pair, as the spec words
it: the parameter must have a default; when no receiver type is present a
default that references the receiver stops the walk (it never elides);
otherwise the default, substituted through the (lifted) current record,
must equal the actual argument. -/
def specDefaultElides (tcx : Tcx) (has_self : Bool) (lifted : Option Substs)
    (d : TypeParameterDef) (actual : Ty) : Bool :=
  match d.default with
  | some dflt =>
    if !has_self && tcx.has_self_ty dflt then
      false
    else
      (lifted.bind fun s => (tcx.lift_ty dflt).map fun d2 =>
        tcx.subst_ty d2 s) == some actual
  | none => false

/-- The elision count equals the gate (empty space / defaultless last
parameter gives zero) followed by the trailing-run walk over the
parameter/argument pairs. -/
theorem number_of_supplied_defaults_eq (tcx : Tcx) (substs : Substs)
    (space : ParamSpace) (gg : Tcx → Generics) :
    number_of_supplied_defaults tcx substs space gg =
      (match ((gg tcx).types.get_slice space).getLast? with
       | none => 0
       | some dlast =>
         match dlast.default with
         | none => 0
         | some _ =>
           trailingCount
             (fun da => specDefaultElides tcx substs.self_ty.isSome
               (tcx.lift_substs substs) da.1 da.2)
             (((gg tcx).types.get_slice space).zip
               (substs.types.get_slice space))) := by
  have hpred : (fun (da : TypeParameterDef × Ty) =>
      match da.1.default with
      | some dflt =>
        if !substs.self_ty.isSome && tcx.has_self_ty dflt then
          false
        else
          ((tcx.lift_substs substs).bind fun s => (tcx.lift_ty dflt).map
            fun d2 => tcx.subst_ty d2 s) == some da.2
      | none => false) =
      (fun (da : TypeParameterDef × Ty) =>
        specDefaultElides tcx substs.self_ty.isSome
          (tcx.lift_substs substs) da.1 da.2) := by
    funext da
    cases hda : da.1.default <;> simp [specDefaultElides, hda]
  simp only [number_of_supplied_defaults]
  rw [hpred]
  cases h : ((gg tcx).types.get_slice space).getLast? with
  | none => simp [h]
  | some dlast =>
    cases hd : dlast.default with
    | none => simp [h, hd]
    | some d => simp [h, hd, trailingCount_eq_takeWhile_reverse]

/-- Under the data-model invariant that argument counts match the
declared parameter counts, the gate is subsumed by the walk itself. -/
theorem number_of_supplied_defaults_trailing (tcx : Tcx) (substs : Substs)
    (space : ParamSpace) (gg : Tcx → Generics)
    (hlen : ((gg tcx).types.get_slice space).length
      = (substs.types.get_slice space).length) :
    number_of_supplied_defaults tcx substs space gg =
      trailingCount
        (fun da => specDefaultElides tcx substs.self_ty.isSome
          (tcx.lift_substs substs) da.1 da.2)
        (((gg tcx).types.get_slice space).zip
          (substs.types.get_slice space)) := by
  rw [number_of_supplied_defaults_eq]
  cases h : ((gg tcx).types.get_slice space).getLast? with
  | none =>
    have he : (gg tcx).types.get_slice space = [] :=
      List.getLast?_eq_none_iff.mp h
    simp [he, trailingCount]
  | some dlast =>
    cases hd : dlast.default with
    | some d => simp [hd]
    | none =>
      have hne : (gg tcx).types.get_slice space ≠ [] := by
        intro he; rw [he] at h; simp at h
      have hne' : (substs.types.get_slice space) ≠ [] := by
        intro he
        rw [he, List.length_nil, List.length_eq_zero] at hlen
        exact hne hlen
      have hsplit : ((gg tcx).types.get_slice space).dropLast
          ++ [((gg tcx).types.get_slice space).getLast hne]
          = (gg tcx).types.get_slice space :=
        List.dropLast_append_getLast hne
      have hsplit' : ((substs.types.get_slice space)).dropLast
          ++ [((substs.types.get_slice space)).getLast hne']
          = substs.types.get_slice space :=
        List.dropLast_append_getLast hne'
      have hlast : ((gg tcx).types.get_slice space).getLast hne = dlast := by
        have := List.getLast?_eq_getLast ((gg tcx).types.get_slice space) hne
        rw [this] at h
        exact (Option.some_inj.mp h)
      have hzip : ((gg tcx).types.get_slice space).zip
          (substs.types.get_slice space)
          = (((gg tcx).types.get_slice space).dropLast.zip
              (substs.types.get_slice space).dropLast)
            ++ [(dlast, (substs.types.get_slice space).getLast hne')] := by
        conv_lhs => rw [← hsplit, ← hsplit']
        rw [List.zip_append (by simp [hlen]), hlast]
        rfl
      have hfalse : specDefaultElides tcx substs.self_ty.isSome
          (tcx.lift_substs substs) dlast
          ((substs.types.get_slice space).getLast hne') = false := by
        simp [specDefaultElides, hd]
      have hle := trailingCount_break_le
        (fun da => specDefaultElides tcx substs.self_ty.isSome
          (tcx.lift_substs substs) da.1 da.2)
        (((gg tcx).types.get_slice space).dropLast.zip
          (substs.types.get_slice space).dropLast) []
        (dlast, (substs.types.get_slice space).getLast hne') hfalse
      rw [hzip]
      simp only [List.length_nil] at hle
      simp [hd]
      omega

/-! ### Claim C1 -/

/-- C1: for every substitution record, parameter space and generics
descriptor, the default-argument elision count equals the length of the
maximal trailing run of parameter/argument pairs, walked from the tail,
in which each parameter has a default that, substituted through the
current (lifted) record, equals the actual argument; the count is zero
when the space is empty or its last parameter has no default; and the
walk stops, without eliding that pair, at a parameter whose default
references the receiver type when no receiver type is in the record
(the stop conditions live inside specDefaultElides).  The three closed
conjuncts check a full elision, a partial one, and the receiver stop. -/
theorem claim_C1_supplied_defaults_walk :
    (∀ (tcx : Tcx) (substs : Substs) (space : ParamSpace)
       (gg : Tcx → Generics),
      number_of_supplied_defaults tcx substs space gg =
        match ((gg tcx).types.get_slice space).getLast? with
        | none => 0
        | some dlast =>
          match dlast.default with
          | none => 0
          | some _ =>
            trailingCount
              (fun da => specDefaultElides tcx substs.self_ty.isSome
                (tcx.lift_substs substs) da.1 da.2)
              (((gg tcx).types.get_slice space).zip
                (substs.types.get_slice space)))
    ∧ number_of_supplied_defaults egTcx substsBothDefault .typeSpace
        (fun _ => ggDefaults) = 2
    ∧ number_of_supplied_defaults egTcx substsMut .typeSpace
        (fun _ => ggDefaults) = 1
    ∧ number_of_supplied_defaults egTcxSelf substsSelfRef .typeSpace
        (fun _ => ggSelfRef) = 0 := by
  exact ⟨fun tcx substs space gg =>
    number_of_supplied_defaults_eq tcx substs space gg, rfl, rfl, rfl⟩

/-! ### Claims C4 and C8 -/

/-- The display name a bound region receives in a binder prefix, as the
spec words it: a user-supplied name is kept, every unnamed bound region
(anonymous, fresh, or environment) shares the one synthesized symbol. -/
def binderDisplayName : BoundRegion → Name
  | .brNamed _ name => name
  | .brAnon _ | .brFresh _ | .brEnv => "\x27r"

/-- The region each bound region is replaced by while rendering under a
binder: named regions are kept, unnamed ones are renamed to the shared
synthesized symbol owned by the crate root. -/
def binderReplacement (crate_def_id : DefId) (br : BoundRegion) : Region :=
  .reLateBound 1 (match br with
    | .brNamed did name => .brNamed did name
    | .brAnon _ | .brFresh _ | .brEnv => .brNamed crate_def_id "\x27r")

/-- C4: when the cross-scope resolution of a binder succeeded, each named
bound region keeps its name and each unnamed one is shown as the shared
synthesized symbol; the for-prefix lists these display names
comma-separated in encounter order and is emitted only when at least one
region was bound; the body is the display of the value rebuilt with the
replacement regions.  The closed conjuncts give the spec's two examples
(two anonymous regions; one named plus one anonymous) and the
no-bound-region case. -/
theorem claim_C4_binder_naming :
    (∀ (T U : Type) (dispT : T → String) (dispU : U → String)
       (encounters : BinderG U → List BoundRegion)
       (replaceLBR : BinderG U → (BoundRegion → Region) → U)
       (crate_def_id : DefId) (original : BinderG T) (value : BinderG U),
      in_binder dispT dispU encounters replaceLBR crate_def_id original
          (some value) =
        (if (encounters value).isEmpty then ""
         else "for<"
           ++ sepJoin ", " ((encounters value).map binderDisplayName)
           ++ "> ")
        ++ dispU (replaceLBR value (binderReplacement crate_def_id)))
    ∧ in_binder id id (fun _ => [.brAnon 0, .brAnon 1]) (fun v _ => v.val)
        did0 (⟨"orig"⟩ : BinderG String) (some ⟨"body"⟩)
        = "for<\x27r, \x27r> body"
    ∧ in_binder id id (fun _ => [.brNamed did0 "\x27a", .brAnon 0])
        (fun v _ => v.val) did0 (⟨"orig"⟩ : BinderG String) (some ⟨"body"⟩)
        = "for<\x27a, \x27r> body"
    ∧ in_binder id id (fun _ => ([] : List BoundRegion)) (fun v _ => v.val)
        did0 (⟨"orig"⟩ : BinderG String) (some ⟨"body"⟩) = "body" := by
  refine ⟨?_, rfl, rfl, rfl⟩
  intro T U dispT dispU encounters replaceLBR crate_def_id original value
  have hname : (fun br => match br with
      | BoundRegion.brNamed _ name => name
      | .brAnon _ | .brFresh _ | .brEnv => "\x27r") = binderDisplayName := by
    funext br
    cases br <;> rfl
  have hrep : (fun br => Region.reLateBound 1 (match br with
      | BoundRegion.brNamed did name => .brNamed did name
      | .brAnon _ | .brFresh _ | .brEnv => .brNamed crate_def_id "\x27r"))
      = binderReplacement crate_def_id := by
    funext br
    cases br <;> rfl
  simp only [in_binder, hname, hrep]

/-- C8: when the best-effort cross-scope resolution of the binder failed,
the renderer prints the original unresolved inner value verbatim — no
for-prefix and no bound-region renaming.  The closed conjunct checks the
concrete fallback. -/
theorem claim_C8_binder_lift_failure :
    (∀ (T U : Type) (dispT : T → String) (dispU : U → String)
       (encounters : BinderG U → List BoundRegion)
       (replaceLBR : BinderG U → (BoundRegion → Region) → U)
       (crate_def_id : DefId) (original : BinderG T),
      in_binder dispT dispU encounters replaceLBR crate_def_id original
        (none : Option (BinderG U)) = dispT original.val)
    ∧ in_binder id (id : String → String) (fun _ => [.brAnon 0])
        (fun v _ => v.val) did0 (⟨"orig"⟩ : BinderG String) none
        = "orig" := by
  exact ⟨fun T U dispT dispU encounters replaceLBR crate_def_id original =>
    rfl, rfl⟩

/-! ### Claim C5 -/

/-- C5: during trait-object printing, a failure to cross-scope-resolve
(lift) the principal interface reference or the projection bounds aborts
the render with the corresponding report (the Except error standing for
the source's expect panic), and the render succeeds exactly when both
lifts succeed; by contrast, the malformed/incomplete display inputs
degrade to placeholder text: a locally-defined nominal type with no
cached layout renders as path<..> and the error placeholder renders as a
fixed literal marker, both without any failure. -/
theorem claim_C5_trait_object_lift_fatal :
    (∀ (fuel : Nat) (tcx : Tcx) (tt : TraitTy),
      ((∃ s, traitTyFmt (fuel+1) tcx tt = .ok s) ↔
        (tcx.lift_trait_ref tt.principal.val).isSome ∧
        (tcx.lift_projection_bounds tt.bounds.projection_bounds).isSome)
      ∧ (tcx.lift_trait_ref tt.principal.val = none →
          traitTyFmt (fuel+1) tcx tt
            = .error "could not lift TraitRef for printing")
      ∧ (∀ principal,
          tcx.lift_trait_ref tt.principal.val = some principal →
          tcx.lift_projection_bounds tt.bounds.projection_bounds = none →
          traitTyFmt (fuel+1) tcx tt
            = .error "could not lift projections for printing"))
    ∧ (∀ (fuel : Nat) (tcx : Tcx) (did : DefId) (substs : Substs),
        tcx.is_local did = true → tcx.tcache_contains did = false →
        dispTy (fuel+1) tcx (.tyStruct did substs)
            = tcx.item_path_str did ++ "<..>"
        ∧ dispTy (fuel+1) tcx (.tyEnum did substs)
            = tcx.item_path_str did ++ "<..>")
    ∧ (∀ (fuel : Nat) (tcx : Tcx),
        dispTy (fuel+1) tcx .tyError = "[type error]") := by
  refine ⟨?_, ?_, ?_⟩
  · intro fuel tcx tt
    refine ⟨?_, ?_, ?_⟩
    · constructor
      · rintro ⟨s, hs⟩
        cases h1 : tcx.lift_trait_ref tt.principal.val with
        | none => simp [traitTyFmt, h1] at hs
        | some principal =>
          cases h2 : tcx.lift_projection_bounds tt.bounds.projection_bounds with
          | none => simp [traitTyFmt, h1, h2] at hs
          | some ps => simp [h1, h2]
      · rintro ⟨h1, h2⟩
        rw [Option.isSome_iff_exists] at h1 h2
        obtain ⟨principal, h1⟩ := h1
        obtain ⟨ps, h2⟩ := h2
        simp only [traitTyFmt, h1, h2]
        exact ⟨_, rfl⟩
    · intro h1
      simp [traitTyFmt, h1]
    · intro principal h1 h2
      simp [traitTyFmt, h1, h2]
  · intro fuel tcx did substs h1 h2
    constructor <;> simp [dispTy, h1, h2]
  · intro fuel tcx
    rfl

/-- Witness for C5 at concrete inputs: both failing lifts produce their
reports, and the degradable inputs produce their placeholders. -/
theorem claim_C5_trait_object_lift_fatal_witness :
    traitTyFmt 1 egTcxNoLift tt0
        = .error "could not lift TraitRef for printing"
    ∧ traitTyFmt 1 egTcxNoLiftProj tt0
        = .error "could not lift projections for printing"
    ∧ dispTy 1 egTcxLocal (.tyStruct did0 ⟨emptyVPS, .erasedRegions⟩)
        = "Foo<..>"
    ∧ dispTy 1 egTcx .tyError = "[type error]" := by
  exact ⟨(claim_C5_trait_object_lift_fatal.1 0 egTcxNoLift tt0).2.1 rfl,
    (claim_C5_trait_object_lift_fatal.1 0 egTcxNoLiftProj tt0).2.2
      tt0.principal.val rfl rfl,
    (claim_C5_trait_object_lift_fatal.2.1 0 egTcxLocal did0
      ⟨emptyVPS, .erasedRegions⟩ rfl rfl).1,
    claim_C5_trait_object_lift_fatal.2.2 0 egTcx⟩

/-! ### Claim C6 -/

/-- The signature rendering exactly as the claim words it: the
parenthesised comma-separated parameters with `, ...` appended whenever
the variadic flag is set, then the output suffix. -/
def fnSigClaimed (fuel : Nat) (tcx : Tcx) (inputs : List Ty)
    (variadic : Bool) (output : FnOutput) : String :=
  "(" ++ sepJoin ", " (inputs.map (dispTy fuel tcx))
    ++ (if variadic then ", ..." else "") ++ ")"
    ++ (match output with
        | .fnConverging t => if t.is_nil then "" else " -> " ++ dispTy fuel tcx t
        | .fnDiverging => " -> !")

/-- C6 counterexample: the claim appends `, ...` whenever the variadic
flag is set, but with an empty parameter list the source renders plain
`()` with no variadic marker (the marker is written inside the
some-first-input branch only). -/
theorem claim_C6_counterexample :
    fn_sig 1 egTcx [] true (.fnConverging (.tyTuple [])) = "()"
    ∧ fnSigClaimed 0 egTcx [] true (.fnConverging (.tyTuple [])) = "(, ...)"
    ∧ fn_sig 1 egTcx [] true (.fnConverging (.tyTuple []))
        ≠ fnSigClaimed 0 egTcx [] true (.fnConverging (.tyTuple [])) := by
  exact ⟨rfl, rfl, by decide⟩

/-- C6 (amended: the `, ...` marker appears only when at least one
parameter is present): the signature renderer emits the parenthesised
comma-separated parameter list, `, ...` when variadic and nonempty,
nothing for a unit output, ` -> T` for any other converging output and
` -> !` for a diverging one.  The closed conjuncts are the spec's
examples. -/
theorem claim_C6_signature_renderer :
    (∀ (fuel : Nat) (tcx : Tcx) (inputs : List Ty) (variadic : Bool)
       (output : FnOutput),
      fn_sig (fuel+1) tcx inputs variadic output =
        "(" ++ sepJoin ", " (inputs.map (dispTy fuel tcx))
          ++ (if variadic && !inputs.isEmpty then ", ..." else "") ++ ")"
          ++ (match output with
              | .fnConverging t =>
                if t.is_nil then "" else " -> " ++ dispTy fuel tcx t
              | .fnDiverging => " -> !"))
    ∧ fn_sig 2 egTcx [.tyInt .i32, .tyBool] false
        (.fnConverging (.tyTuple [])) = "(i32, bool)"
    ∧ fn_sig 2 egTcx [.tyInt .i32, .tyBool] false
        (.fnConverging (.tyInt .i32)) = "(i32, bool) -> i32"
    ∧ fn_sig 2 egTcx [.tyInt .i32, .tyBool] false .fnDiverging
        = "(i32, bool) -> !"
    ∧ fn_sig 2 egTcx [.tyInt .i32] true (.fnConverging (.tyTuple []))
        = "(i32, ...)" := by
  refine ⟨?_, rfl, rfl, rfl, rfl⟩
  intro fuel tcx inputs variadic output
  cases inputs with
  | nil => cases variadic <;> rfl
  | cons t rest =>
    simp only [fn_sig, sepJoin, List.map_cons, List.map_map,
      List.isEmpty_cons, Bool.not_false, Bool.and_true,
      String.append_assoc]
    rfl

/-! ### The general (non-sugar) path of parameterized -/

/-- When the call-trait sugar does not fire, `parameterized` renders the
receiver prefix, the resolved path, the main generic-argument list and
(for the value namespace) the value suffix. -/
theorem parameterized_no_sugar (fuel : Nat) (tcx : Tcx) (substs : Substs)
    (did : DefId) (ns : Ns) (projections : List ProjectionPredicate)
    (gg : Tcx → Generics)
    (h : callTraitSugar tcx substs (resolveValueItem tcx did ns).1 projections
      (fun a v o => fn_sig fuel tcx a v o) = none) :
    parameterized (fuel+1) tcx substs did ns projections gg =
      (match ns, substs.self_ty with
       | .value, some self_ty => "<" ++ dispTy fuel tcx self_ty ++ " as "
       | _, _ => "")
      ++ tcx.item_path_str (resolveValueItem tcx did ns).1
      ++ (let items := parameterizedArgItems tcx substs projections gg
            (fun t => dispTy fuel tcx t)
          if items.isEmpty then "" else "<" ++ sepJoin ", " items ++ ">")
      ++ (if ns = .value then
            parameterizedValueSuffix tcx substs (resolveValueItem tcx did ns).2
              (fun t => dispTy fuel tcx t)
          else "") := by
  simp only [parameterized, h]
  cases ns with
  | type' => rfl
  | value => cases h2 : substs.self_ty <;> rfl

/-! ### Claim C3 -/

/-- C3 counterexample: the claim makes the function-signature sugar fire
for any item given exactly one projection predicate and a sole
tuple-shaped type argument, but the source additionally requires the item
to be a Fn/FnMut/FnOnce lang item: for an ordinary item the renderer
prints the full generic-argument list instead of a signature. -/
theorem claim_C3_counterexample :
    (egTcx.fn_trait_kind (resolveValueItem egTcx did0 .type').1).isSome = false
    ∧ (substsTup.types.get_slice .typeSpace).head? = some (.tyTuple [.tyBool])
    ∧ [projP].length = 1
    ∧ parameterized 3 egTcx substsTup did0 .type' [projP] (fun _ => noGenerics)
        = "Foo<(bool,), Output=char>"
    ∧ parameterized 3 egTcx substsTup did0 .type' [projP] (fun _ => noGenerics)
        ≠ "Foo" ++ fn_sig 2 egTcx [.tyBool] false (.fnConverging projP.ty) := by
  exact ⟨rfl, rfl, rfl, rfl, by decide⟩

/-- C3 (amended: the item must additionally be one of the call-trait
lang items): in non-verbose mode, when the resolved item is a
Fn/FnMut/FnOnce lang item, exactly one projection predicate is given and
the first (sole) type-space argument is a tuple of parameter types, the
renderer emits the receiver prefix and path followed directly by the
function signature whose output is the projection's assigned type, and
returns — no generic-argument list is printed.  The closed conjunct
checks the concrete sugar rendering. -/
theorem claim_C3_call_trait_sugar :
    (∀ (fuel : Nat) (tcx : Tcx) (substs : Substs) (did : DefId) (ns : Ns)
       (projections : List ProjectionPredicate) (gg : Tcx → Generics)
       (proj : ProjectionPredicate) (args : List Ty),
      tcx.verbose = false →
      (tcx.fn_trait_kind (resolveValueItem tcx did ns).1).isSome = true →
      projections = [proj] →
      (substs.types.get_slice .typeSpace).head? = some (.tyTuple args) →
      parameterized (fuel+1) tcx substs did ns projections gg =
        (match ns, substs.self_ty with
         | .value, some self_ty => "<" ++ dispTy fuel tcx self_ty ++ " as "
         | _, _ => "")
        ++ tcx.item_path_str (resolveValueItem tcx did ns).1
        ++ fn_sig fuel tcx args false (.fnConverging proj.ty))
    ∧ parameterized 3 egTcxFn substsTup did0 .type' [projP]
        (fun _ => noGenerics) = "Foo(bool) -> char" := by
  refine ⟨?_, rfl⟩
  intro fuel tcx substs did ns projections gg proj args hv hk hp ht
  subst hp
  have hsugar : callTraitSugar tcx substs (resolveValueItem tcx did ns).1
      [proj] (fun a v o => fn_sig fuel tcx a v o)
      = some (fn_sig fuel tcx args false (.fnConverging proj.ty)) := by
    simp [callTraitSugar, hv, hk, ht]
  simp only [parameterized, hsugar]

/-- Witness for the amended C3 at a concrete call-trait instance. -/
theorem claim_C3_call_trait_sugar_witness :
    parameterized 1 egTcxFn substsTup did0 .type' [projP]
        (fun _ => noGenerics)
      = "Foo" ++ fn_sig 0 egTcxFn [.tyBool] false (.fnConverging .tyChar) := by
  exact claim_C3_call_trait_sugar.1 0 egTcxFn substsTup did0 .type' [projP]
    (fun _ => noGenerics) projP [.tyBool] rfl rfl rfl rfl

/-! ### Claim C7 -/

/-- C7: in the value namespace (when the sugar does not fire) the
renderer closes the receiver prefix with `>` exactly when a receiver
type is present, appends ::itemName exactly when the owner lookup
resolved the identifier to an associated value, and then appends a
second ::<...> list holding every method-space region and every
method-space type argument — no default elision — omitted only when both
are empty.  The first conjunct places the suffix in the full rendering,
the second spells the suffix out, the third ties the item name to the
owner lookup, and the last checks a concrete receiver+item+method-arg
rendering. -/
theorem claim_C7_value_namespace_suffix :
    (∀ (fuel : Nat) (tcx : Tcx) (substs : Substs) (did : DefId)
       (projections : List ProjectionPredicate) (gg : Tcx → Generics),
      callTraitSugar tcx substs (resolveValueItem tcx did .value).1
          projections (fun a v o => fn_sig fuel tcx a v o) = none →
      parameterized (fuel+1) tcx substs did .value projections gg =
        (match substs.self_ty with
         | some self_ty => "<" ++ dispTy fuel tcx self_ty ++ " as "
         | none => "")
        ++ tcx.item_path_str (resolveValueItem tcx did .value).1
        ++ (let items := parameterizedArgItems tcx substs projections gg
              (fun t => dispTy fuel tcx t)
            if items.isEmpty then "" else "<" ++ sepJoin ", " items ++ ">")
        ++ parameterizedValueSuffix tcx substs
            (resolveValueItem tcx did .value).2 (fun t => dispTy fuel tcx t))
    ∧ (∀ (tcx : Tcx) (substs : Substs) (item_name : Option Name)
         (disp : Ty → String),
        parameterizedValueSuffix tcx substs item_name disp =
          (if substs.self_ty.isSome then ">" else "")
          ++ (match item_name with
              | some n => "::" ++ n
              | none => "")
          ++ (let fnItems :=
                ((substs.regions.get_slice .fnSpace).map
                  fun r => print_region tcx r)
                ++ (substs.types.get_slice .fnSpace).map disp
              if fnItems.isEmpty then ""
              else "::<" ++ sepJoin ", " fnItems ++ ">"))
    ∧ (∀ (tcx : Tcx) (did : DefId),
        ((resolveValueItem tcx did .value).2).isSome =
          ((tcx.trait_of_item did).isSome || (tcx.impl_of_method did).isSome))
    ∧ parameterized 3 egTcxVal substsVal did0 .value [] (fun _ => noGenerics)
        = "<bool as Foo<char>>::mth::<str>" := by
  refine ⟨?_, ?_, ?_, rfl⟩
  · intro fuel tcx substs did projections gg h
    rw [parameterized_no_sugar fuel tcx substs did .value projections gg h]
    cases h2 : substs.self_ty <;> rfl
  · intro tcx substs item_name disp
    rfl
  · intro tcx did
    simp only [resolveValueItem, if_pos rfl]
    cases h1 : tcx.trait_of_item did with
    | some p => rfl
    | none =>
      cases h2 : tcx.impl_of_method did with
      | some p => simp [Option.orElse, h2]
      | none => simp [Option.orElse, h2]

/-- Witness for C7: the concrete conjuncts hold and the no-sugar path
instantiates at the concrete value-namespace input. -/
theorem claim_C7_value_namespace_suffix_witness :
    parameterized 2 egTcxVal substsVal did0 .value [] (fun _ => noGenerics)
      = "<bool as " ++ "Foo"
        ++ "<char>"
        ++ parameterizedValueSuffix egTcxVal substsVal (some "mth")
            (fun t => dispTy 1 egTcxVal t) := by
  have h := claim_C7_value_namespace_suffix.1 1 egTcxVal substsVal did0 []
    (fun _ => noGenerics) rfl
  exact h

/-! ### Claim C9 -/

/-- C9: a closure renders as `[closure` + `@sourceLocation` when locally
defined (captured variables named through the free-variable list) or
`@globalIdentity` otherwise (captured variables labelled by index),
followed by the captured variables as name:Type pairs, comma-separated
in declaration order, then `]`.  The closed conjuncts check one local
and one cross-crate closure. -/
theorem claim_C9_closure_rendering :
    (∀ (fuel : Nat) (tcx : Tcx) (did : DefId) (csubsts : ClosureSubsts)
       (node_id : Nat),
      tcx.as_local_node_id did = some node_id →
      dispTy (fuel+1) tcx (.tyClosure did csubsts) =
        "[closure@" ++ tcx.span_str node_id
        ++ (let items := ((tcx.freevars node_id).zip csubsts.upvar_tys).map
              fun fv => tcx.local_var_name_str fv.1 ++ ":"
                ++ dispTy fuel tcx fv.2
            if items.isEmpty then "" else " " ++ sepJoin ", " items)
        ++ "]")
    ∧ (∀ (fuel : Nat) (tcx : Tcx) (did : DefId) (csubsts : ClosureSubsts),
      tcx.as_local_node_id did = none →
      dispTy (fuel+1) tcx (.tyClosure did csubsts) =
        "[closure@" ++ tcx.def_id_debug did
        ++ (let items := (csubsts.upvar_tys.enum).map
              fun ut => toString ut.1 ++ ":" ++ dispTy fuel tcx ut.2
            if items.isEmpty then "" else " " ++ sepJoin ", " items)
        ++ "]")
    ∧ dispTy 2 egTcxClo (.tyClosure did0 cloSubsts)
        = "[closure@sp7 v10:bool, v11:char]"
    ∧ dispTy 2 egTcx (.tyClosure did0 cloSubsts)
        = "[closure@DefId(0/0) 0:bool, 1:char]" := by
  refine ⟨?_, ?_, rfl, rfl⟩
  · intro fuel tcx did csubsts node_id h
    simp only [dispTy, h]
    rfl
  · intro fuel tcx did csubsts h
    simp only [dispTy, h]
    rfl

/-- Witness for C9 applied at the two concrete closures. -/
theorem claim_C9_closure_rendering_witness :
    dispTy 1 egTcxClo (.tyClosure did0 cloSubsts)
      = "[closure@sp7 v10:, v11:]"
    ∧ dispTy 1 egTcx (.tyClosure did0 cloSubsts)
      = "[closure@DefId(0/0) 0:, 1:]" := by
  exact ⟨claim_C9_closure_rendering.1 0 egTcxClo did0 cloSubsts 7 rfl,
    claim_C9_closure_rendering.2.1 0 egTcx did0 cloSubsts rfl⟩

/-! ### Claim C10 -/

/-- C10: in concise mode a region whose display text is empty (a
scope-local region or a region inference variable) prints as the
placeholder underscore lifetime inside a path renderer argument list,
but contributes no text and no separating space inside a reference type,
which renders as &inner or &mut inner.  The final closed conjuncts check
the concrete reference and path renderings. -/
theorem claim_C10_empty_region_text :
    (Region.displayStr false (.reScope 3) = ""
      ∧ ∀ n, Region.displayStr false (.reVar n) = "")
    ∧ (∀ (tcx : Tcx) (r : Region),
        tcx.verbose = false → r.displayStr false = "" →
        print_region tcx r = "\x27_")
    ∧ (∀ (fuel : Nat) (tcx : Tcx) (r : Region) (mutbl : Mutability)
         (inner : Ty),
        tcx.verbose = false → r.displayStr false = "" →
        dispTy (fuel+1) tcx (.tyRef r mutbl inner) =
          "&" ++ (if mutbl = .mutMutable then "mut " else "")
            ++ dispTy fuel tcx inner)
    ∧ (∀ (fuel : Nat) (tcx : Tcx) (substs : Substs) (did : DefId)
         (gg : Tcx → Generics) (r : Region),
        tcx.verbose = false → r.displayStr false = "" →
        substs.regions.get_slice .typeSpace = [r] →
        substs.types.get_slice .typeSpace = [] →
        parameterized (fuel+1) tcx substs did .type' [] gg =
          tcx.item_path_str did ++ "<\x27_>")
    ∧ dispTy 2 egTcx (.tyRef (.reScope 3) .mutMutable (.tyInt .i32))
        = "&mut i32"
    ∧ parameterized 2 egTcx substsReg did0 .type' [] (fun _ => noGenerics)
        = "Foo<\x27_>" := by
  refine ⟨⟨rfl, fun n => rfl⟩, ?_, ?_, ?_, rfl, rfl⟩
  · intro tcx r hv he
    simp [print_region, hv, he]
  · intro fuel tcx r mutbl inner hv he
    simp only [dispTy, hv, he]
    rfl
  · intro fuel tcx substs did gg r hv he hreg htys
    have hs : callTraitSugar tcx substs (resolveValueItem tcx did .type').1 []
        (fun a v o => fn_sig fuel tcx a v o) = none := by
      simp [callTraitSugar]
    rw [parameterized_no_sugar fuel tcx substs did .type' [] gg hs]
    have hpr : print_region tcx r = "\x27_" := by
      simp [print_region, hv, he]
    simp [parameterizedArgItems, hreg, htys, shownTypeArgs, hpr, sepJoin,
      resolveValueItem]
    rfl

/-- Witness for C10 applied at a scope-local region. -/
theorem claim_C10_empty_region_text_witness :
    print_region egTcx (.reScope 5) = "\x27_"
    ∧ dispTy 2 egTcx (.tyRef (.reVar 2) .mutMutable .tyBool) = "&mut bool"
    ∧ parameterized 1 egTcx substsReg did0 .type' [] (fun _ => noGenerics)
        = "Foo<\x27_>" := by
  exact ⟨claim_C10_empty_region_text.2.1 egTcx (.reScope 5) rfl rfl,
    claim_C10_empty_region_text.2.2.1 1 egTcx (.reVar 2) .mutMutable .tyBool
      rfl rfl,
    claim_C10_empty_region_text.2.2.2.1 0 egTcx substsReg did0
      (fun _ => noGenerics) (.reScope 3) rfl rfl rfl rfl⟩

/-! ### Claim C2 -/

/-- Taking all but the last k elements of an appended list keeps the
first part whole when k stays within the second part. -/
theorem take_sub_append {α : Type} (l₁ l₂ : List α) (k : Nat)
    (hk : k ≤ l₂.length) :
    (l₁ ++ l₂).take ((l₁ ++ l₂).length - k) = l₁ ++ l₂.take (l₂.length - k) := by
  have h : (l₁ ++ l₂).length - k = l₁.length + (l₂.length - k) := by
    simp only [List.length_append]
    omega
  rw [h, List.take_append]

/-- C2 counterexample: with both trailing arguments equal to their
defaults the whole list is elided; mutating the FIRST elided argument to
a non-default value (str) must, per the claim, restore that argument and
every argument after it, but the source still elides the second
argument: the printed list is Foo<str> and does not contain char. -/
theorem claim_C2_counterexample :
    number_of_supplied_defaults egTcx substsBothDefault .typeSpace
        (fun _ => ggDefaults) = 2
    ∧ shownTypeArgs egTcx substsBothDefault (fun _ => ggDefaults) = []
    ∧ specDefaultElides egTcx false (some substsMut)
        (tpd "A" (some .tyBool)) .tyStr = false
    ∧ shownTypeArgs egTcx substsMut (fun _ => ggDefaults) = [.tyStr]
    ∧ parameterized 2 egTcx substsMut did0 .type' [] (fun _ => ggDefaults)
        = "Foo<str>"
    ∧ ¬ (Ty.tyChar ∈ shownTypeArgs egTcx substsMut (fun _ => ggDefaults)) := by
  refine ⟨rfl, rfl, rfl, rfl, rfl, ?_⟩
  intro h
  have he : shownTypeArgs egTcx substsMut (fun _ => ggDefaults)
      = [.tyStr] := rfl
  rw [he] at h
  simp at h

/-- C2 (amended: mutating an elided argument to a non-default value
restores that argument and every elided argument BEFORE it, while the
arguments after it that still equal their substituted defaults under the
new record remain elided).  Conjunct one places the shown-argument list
inside the rendered output; conjunct two is the claim's first half: when
the pairs split into a prefix and a maximal all-elidable trailing run,
the printed type arguments are exactly the prefix's arguments, omitting
precisely the k trailing ones; conjunct three is the corrected second
half, for a record whose argument at the split position fails its
default test. -/
theorem claim_C2_default_elision_printing :
    (∀ (fuel : Nat) (tcx : Tcx) (substs : Substs) (did : DefId) (ns : Ns)
       (projections : List ProjectionPredicate) (gg : Tcx → Generics),
      callTraitSugar tcx substs (resolveValueItem tcx did ns).1 projections
          (fun a v o => fn_sig fuel tcx a v o) = none →
      parameterized (fuel+1) tcx substs did ns projections gg =
        (match ns, substs.self_ty with
         | .value, some self_ty => "<" ++ dispTy fuel tcx self_ty ++ " as "
         | _, _ => "")
        ++ tcx.item_path_str (resolveValueItem tcx did ns).1
        ++ (let items := parameterizedArgItems tcx substs projections gg
              (fun t => dispTy fuel tcx t)
            if items.isEmpty then "" else "<" ++ sepJoin ", " items ++ ">")
        ++ (if ns = .value then
              parameterizedValueSuffix tcx substs
                (resolveValueItem tcx did ns).2 (fun t => dispTy fuel tcx t)
            else ""))
    ∧ (∀ (tcx : Tcx) (substs : Substs) (gg : Tcx → Generics)
         (q₁ q₂ : List (TypeParameterDef × Ty)),
        tcx.verbose = false →
        ((gg tcx).types.get_slice .typeSpace).length
          = (substs.types.get_slice .typeSpace).length →
        ((gg tcx).types.get_slice .typeSpace).zip
            (substs.types.get_slice .typeSpace) = q₁ ++ q₂ →
        (∀ x ∈ q₂, specDefaultElides tcx substs.self_ty.isSome
          (tcx.lift_substs substs) x.1 x.2 = true) →
        (q₁ = [] ∨ ∃ q₀ x, q₁ = q₀ ++ [x] ∧
          specDefaultElides tcx substs.self_ty.isSome
            (tcx.lift_substs substs) x.1 x.2 = false) →
        shownTypeArgs tcx substs gg = q₁.map Prod.snd
          ∧ substs.types.get_slice .typeSpace
              = q₁.map Prod.snd ++ q₂.map Prod.snd)
    ∧ (∀ (tcx : Tcx) (substs : Substs) (gg : Tcx → Generics)
         (p₁ p₂ : List TypeParameterDef) (dj : TypeParameterDef)
         (t₁ t₂ : List Ty) (a' : Ty),
        tcx.verbose = false →
        (gg tcx).types.get_slice .typeSpace = p₁ ++ dj :: p₂ →
        substs.types.get_slice .typeSpace = t₁ ++ a' :: t₂ →
        p₁.length = t₁.length →
        p₂.length = t₂.length →
        specDefaultElides tcx substs.self_ty.isSome
          (tcx.lift_substs substs) dj a' = false →
        (∃ t₃, shownTypeArgs tcx substs gg = t₁ ++ a' :: t₃)
          ∧ ((∀ x ∈ p₂.zip t₂, specDefaultElides tcx substs.self_ty.isSome
              (tcx.lift_substs substs) x.1 x.2 = true) →
            shownTypeArgs tcx substs gg = t₁ ++ [a'])) := by
  refine ⟨?_, ?_, ?_⟩
  · intro fuel tcx substs did ns projections gg h
    rw [parameterized_no_sugar fuel tcx substs did ns projections gg h]
    cases ns with
    | type' => rfl
    | value => cases h2 : substs.self_ty <;> rfl
  · intro tcx substs gg q₁ q₂ hv hlen hzip hall hmax
    have hk : number_of_supplied_defaults tcx substs .typeSpace gg
        = q₂.length := by
      rw [number_of_supplied_defaults_trailing tcx substs .typeSpace gg hlen,
        hzip]
      exact trailingCount_append_all _ q₁ q₂ hall hmax
    have htps : substs.types.get_slice .typeSpace
        = q₁.map Prod.snd ++ q₂.map Prod.snd := by
      have hm := List.map_snd_zip ((gg tcx).types.get_slice .typeSpace)
        (substs.types.get_slice .typeSpace) (le_of_eq hlen.symm)
      rw [hzip, List.map_append] at hm
      exact hm.symm
    refine ⟨?_, htps⟩
    unfold shownTypeArgs
    simp only [hv, Bool.false_eq_true, if_false, hk]
    rw [htps]
    have hlq : (q₁.map Prod.snd ++ q₂.map Prod.snd).length - q₂.length
        = (q₁.map Prod.snd).length := by
      simp
    rw [hlq, List.take_left]
  · intro tcx substs gg p₁ p₂ dj t₁ t₂ a' hv hp ht hl1 hl2 hne
    have hlen : ((gg tcx).types.get_slice .typeSpace).length
        = (substs.types.get_slice .typeSpace).length := by
      rw [hp, ht]
      simp [hl1, hl2]
    have hzip : ((gg tcx).types.get_slice .typeSpace).zip
        (substs.types.get_slice .typeSpace)
        = (p₁.zip t₁) ++ ((dj, a') :: p₂.zip t₂) := by
      rw [hp, ht, List.zip_append hl1]
      rfl
    have hkt := number_of_supplied_defaults_trailing tcx substs .typeSpace gg
      hlen
    rw [hzip] at hkt
    have hkle : number_of_supplied_defaults tcx substs .typeSpace gg
        ≤ t₂.length := by
      rw [hkt]
      calc trailingCount _ ((p₁.zip t₁) ++ ((dj, a') :: p₂.zip t₂))
          ≤ (p₂.zip t₂).length :=
            trailingCount_break_le _ (p₁.zip t₁) (p₂.zip t₂) (dj, a') hne
        _ ≤ t₂.length := by
            rw [List.length_zip]
            omega
    have htake : shownTypeArgs tcx substs gg
        = t₁ ++ (a' :: t₂).take (t₂.length + 1
            - number_of_supplied_defaults tcx substs .typeSpace gg) := by
      unfold shownTypeArgs
      simp only [hv, Bool.false_eq_true, if_false]
      rw [ht, take_sub_append t₁ (a' :: t₂)
        (number_of_supplied_defaults tcx substs .typeSpace gg)
        (by simp only [List.length_cons]; omega)]
      simp only [List.length_cons]
    constructor
    · refine ⟨t₂.take (t₂.length
        - number_of_supplied_defaults tcx substs .typeSpace gg), ?_⟩
      rw [htake]
      have h1 : t₂.length + 1
          - number_of_supplied_defaults tcx substs .typeSpace gg
          = (t₂.length
            - number_of_supplied_defaults tcx substs .typeSpace gg) + 1 := by
        omega
      rw [h1, List.take_succ_cons]
    · intro hall2
      have hk2 : number_of_supplied_defaults tcx substs .typeSpace gg
          = t₂.length := by
        rw [hkt, List.append_cons]
        rw [trailingCount_append_all _ ((p₁.zip t₁) ++ [(dj, a')])
          (p₂.zip t₂) hall2 (Or.inr ⟨p₁.zip t₁, (dj, a'), rfl, hne⟩)]
        rw [List.length_zip]
        omega
      rw [htake, hk2]
      have h1 : t₂.length + 1 - t₂.length = 1 := by omega
      rw [h1]
      rfl

/-- Witness for the amended C2 at the concrete instances: full elision,
then a mutated head argument whose successors stay elided. -/
theorem claim_C2_default_elision_printing_witness :
    shownTypeArgs egTcx substsBothDefault (fun _ => ggDefaults) = []
    ∧ shownTypeArgs egTcx substsMut (fun _ => ggDefaults) = [Ty.tyStr]
    ∧ parameterized 1 egTcx substsBothDefault did0 .type' []
        (fun _ => ggDefaults) = "Foo" := by
  refine ⟨?_, ?_, ?_⟩
  · exact (claim_C2_default_elision_printing.2.1 egTcx substsBothDefault
      (fun _ => ggDefaults) []
      [(tpd "A" (some .tyBool), .tyBool), (tpd "B" (some .tyChar), .tyChar)]
      rfl rfl rfl (by intro x hx; fin_cases hx <;> rfl) (Or.inl rfl)).1
  · have h := (claim_C2_default_elision_printing.2.2 egTcx substsMut
      (fun _ => ggDefaults) [] [tpd "B" (some .tyChar)]
      (tpd "A" (some .tyBool)) [] [.tyChar] .tyStr
      rfl rfl rfl rfl rfl rfl).2 (by intro x hx; fin_cases hx; rfl)
    simpa using h
  · exact claim_C2_default_elision_printing.1 0 egTcx substsBothDefault did0
      .type' [] (fun _ => ggDefaults) rfl

end Ppaux
